import Mathlib

/-!
Verification of the log ingestion and aggregation engine of
claude-code-history-viewer (src-tauri).

The definitions below are a shallow embedding of the Rust source:

* JSON values (`serde_json::Value`) are modelled by the inductive `Json`;
  numbers carry an `Int` (the integer JSON numbers the code inspects via
  `as_u64`).  `Json.get` is `Value::get` restricted to objects.
* `u32`/`u64` machine integers are modelled by `Nat` with explicit
  `% 2 ^ 32` at the points where the source performs an `as u32` cast and
  an explicit `< 2 ^ 64` bound where `as_u64` succeeds.
* The record types (`TokenUsage`, `RawLogEntry`, `ClaudeMessage`,
  `RecentFileEdit`, ...) mirror the structs in `src/models.rs`,
  `src/models/message.rs` and `src/models/edit.rs`.
* Nondeterministic environment inputs (a freshly generated uuid,
  the current process time) are passed as explicit parameters.
* Filesystem side effects of `restore_file` are modelled as an emitted
  trace of actions: the `Except.ok` branch lists the mutations the code
  would perform, the `Except.error` branch performs none.
-/

/-- JSON values as inspected by the Rust code (`serde_json::Value`).
Numbers are modelled as integers: the code only reads numbers through
`as_u64`, which succeeds exactly on integral values in `[0, 2^64)`. -/
inductive Json where
  | null
  | bool (b : Bool)
  | num (n : Int)
  | str (s : String)
  | arr (items : List Json)
  | obj (fields : List (String × Json))

/-- First-match lookup of a key in a JSON object's field list. -/
def lookupField : List (String × Json) → String → Option Json
  | [], _ => none
  | (k, v) :: rest, key => if k = key then some v else lookupField rest key

/-- `Value::get(key)`: field lookup on objects, `None` on any other value. -/
def Json.get : Json → String → Option Json
  | .obj fields, key => lookupField fields key
  | _, _ => none

/-- `Value::as_str`. -/
def Json.asStr? : Json → Option String
  | .str s => some s
  | _ => none

/-- `Value::as_u64`: succeeds on integer numbers in `[0, 2^64)`. -/
def Json.asU64? : Json → Option Nat
  | .num n => if 0 ≤ n ∧ n < 2 ^ 64 then some n.toNat else none
  | _ => none

/-- `Value::as_bool`. -/
def Json.asBool? : Json → Option Bool
  | .bool b => some b
  | _ => none

/-- `Value::as_array`. -/
def Json.asArr? : Json → Option (List Json)
  | .arr items => some items
  | _ => none

/-- `Value::is_object`. -/
def Json.isObject : Json → Bool
  | .obj _ => true
  | _ => false

/-- `TokenUsage` (src/models.rs).  The `u32` counters are `Nat`s that are
always written as `v % 2 ^ 32` where the source casts `as u32`. -/
structure TokenUsage where
  input_tokens : Option Nat
  output_tokens : Option Nat
  cache_creation_input_tokens : Option Nat
  cache_read_input_tokens : Option Nat
  service_tier : Option String
deriving DecidableEq

/-- `MessageContent` (src/models.rs): the embedded `message` payload. -/
structure MessageContent where
  role : String
  content : Json
  id : Option String
  model : Option String
  stop_reason : Option String
  usage : Option TokenUsage

/-- `RawLogEntry` (src/models.rs, extended with the `cwd` field of
src/models/message.rs which the edit reconstructor reads).  Only the
fields the verified commands consume are represented. -/
structure RawLogEntry where
  uuid : Option String
  parent_uuid : Option String
  session_id : Option String
  timestamp : Option String
  message_type : String
  message : Option MessageContent
  tool_use : Option Json
  tool_use_result : Option Json
  is_sidechain : Option Bool
  cwd : Option String

/-- `ClaudeMessage` (src/models.rs): the canonical message derived from a
raw log entry. -/
structure ClaudeMessage where
  uuid : String
  parent_uuid : Option String
  session_id : String
  timestamp : String
  message_type : String
  content : Option Json
  tool_use : Option Json
  tool_use_result : Option Json
  is_sidechain : Option Bool
  usage : Option TokenUsage
  role : Option String
  message_id : Option String
  model : Option String
  stop_reason : Option String

/-- The content-level `usage` block of `extract_token_usage`
(src/commands/stats.rs lines 30-46): each present field overwrites the
accumulator; `service_tier` is also read on this path. -/
def applyContentUsage (uo : Json) (u : TokenUsage) : TokenUsage :=
  let u := match (uo.get "input_tokens").bind Json.asU64? with
    | some n => { u with input_tokens := some (n % 2 ^ 32) }
    | none => u
  let u := match (uo.get "output_tokens").bind Json.asU64? with
    | some n => { u with output_tokens := some (n % 2 ^ 32) }
    | none => u
  let u := match (uo.get "service_tier").bind Json.asStr? with
    | some t => { u with service_tier := some t }
    | none => u
  let u := match (uo.get "cache_creation_input_tokens").bind Json.asU64? with
    | some n => { u with cache_creation_input_tokens := some (n % 2 ^ 32) }
    | none => u
  match (uo.get "cache_read_input_tokens").bind Json.asU64? with
  | some n => { u with cache_read_input_tokens := some (n % 2 ^ 32) }
  | none => u

/-- The tool-result `usage` block of `extract_token_usage`
(src/commands/stats.rs lines 50-63): like the content-level block but
without `service_tier`. -/
def applyToolResultUsage (uo : Json) (u : TokenUsage) : TokenUsage :=
  let u := match (uo.get "input_tokens").bind Json.asU64? with
    | some n => { u with input_tokens := some (n % 2 ^ 32) }
    | none => u
  let u := match (uo.get "output_tokens").bind Json.asU64? with
    | some n => { u with output_tokens := some (n % 2 ^ 32) }
    | none => u
  let u := match (uo.get "cache_creation_input_tokens").bind Json.asU64? with
    | some n => { u with cache_creation_input_tokens := some (n % 2 ^ 32) }
    | none => u
  match (uo.get "cache_read_input_tokens").bind Json.asU64? with
  | some n => { u with cache_read_input_tokens := some (n % 2 ^ 32) }
  | none => u

/-- The usage resolved from the content-level `usage` object and the
tool-result `usage` object, before the `totalTokens` fallback
(src/commands/stats.rs lines 15-63, reached only when the message has no
message-level usage). -/
def resolveUsagePreFallback (message : ClaudeMessage) : TokenUsage :=
  let u : TokenUsage := ⟨none, none, none, none, none⟩
  let usageObj : Option Json := match message.content with
    | some content =>
        if content.isObject && (content.get "usage").isSome then content.get "usage" else none
    | none => none
  let u := match usageObj with
    | some uo => applyContentUsage uo u
    | none => u
  match message.tool_use_result with
  | some tr =>
      match tr.get "usage" with
      | some uo => applyToolResultUsage uo u
      | none => u
  | none => u

/-- `extract_token_usage` (src/commands/stats.rs lines 10-77).  A
message-level usage object is returned as-is (early return); otherwise
the content-level and tool-result usage objects are applied in order and
finally the `totalTokens` fallback attributes the scalar to output
tokens for assistant messages and to input tokens otherwise, but only
when neither input nor output tokens were resolved. -/
def extract_token_usage (message : ClaudeMessage) : TokenUsage :=
  match message.usage with
  | some u => u
  | none =>
    let u := resolveUsagePreFallback message
    match message.tool_use_result with
    | some tr =>
        match (tr.get "totalTokens").bind Json.asU64? with
        | some t =>
            if u.input_tokens = none ∧ u.output_tokens = none then
              if message.message_type = "assistant" then
                { u with output_tokens := some (t % 2 ^ 32) }
              else
                { u with input_tokens := some (t % 2 ^ 32) }
            else u
        | none => u
    | none => u

/-- `TryFrom<RawLogEntry> for ClaudeMessage` (src/commands/stats.rs lines
425-465).  `freshUuid` stands for `uuid::Uuid::new_v4().to_string()` and
`nowRfc3339` for `Utc::now().to_rfc3339()`, the two nondeterministic
environment inputs of the conversion. -/
def tryFromRawLogEntry (freshUuid nowRfc3339 : String) (e : RawLogEntry) :
    Except String ClaudeMessage :=
  if e.message_type = "summary" then
    .error "Summary entries should be handled separately"
  else if e.session_id = none ∧ e.timestamp = none then
    .error "Missing session_id and timestamp"
  else
    let role := e.message.map (·.role)
    let messageId := e.message.bind (·.id)
    let model := e.message.bind (·.model)
    let stopReason := e.message.bind (·.stop_reason)
    let usage := e.message.bind (·.usage)
    .ok
      { uuid := e.uuid.getD freshUuid
        parent_uuid := e.parent_uuid
        session_id := e.session_id.getD "unknown-session"
        timestamp := e.timestamp.getD nowRfc3339
        message_type := e.message_type
        content := e.message.map (·.content)
        tool_use := e.tool_use
        tool_use_result := e.tool_use_result
        is_sidechain := e.is_sidechain
        usage := usage
        role := role
        message_id := messageId
        model := model
        stop_reason := stopReason }

/-- Whether an `Except` result is an error. -/
def Except.isErr : Except ε α → Bool
  | .error _ => true
  | .ok _ => false

/-- Tool usage accumulator: per tool name a `(usage_count, success_count)`
pair, modelling the `HashMap<String, (u32, u32)>` of the aggregation
engine as a total function defaulting to `(0, 0)`. -/
def ToolMap : Type := String → Nat × Nat

/-- `entry(name).or_insert((0,0))` followed by `.0 += 1` and, when `succ`
holds, `.1 += 1`. -/
def bumpTool (m : ToolMap) (name : String) (succ : Bool) : ToolMap :=
  fun k =>
    if k = name then ((m name).1 + 1, (m name).2 + (if succ then 1 else 0)) else m k

/-- The scan of an assistant message's content array for `tool_use` items
(src/commands/stats.rs lines 236-246 and 598-608): every `tool_use` item
with a string `name` bumps both the usage and the success counter. -/
def scanContentToolUses (items : List Json) (m : ToolMap) : ToolMap :=
  items.foldl
    (fun acc item =>
      match (item.get "type").bind Json.asStr? with
      | some t =>
          if t = "tool_use" then
            match (item.get "name").bind Json.asStr? with
            | some name => bumpTool acc name true
            | none => acc
          else acc
      | none => acc)
    m

/-- Per-message tool usage accounting (src/commands/stats.rs lines
233-262 and 595-624): the assistant content-array scan, then the
top-level `toolUse` payload whose success counter is conditional on the
tool result's `is_error` flag. -/
def updateToolUsage (message : ClaudeMessage) (m : ToolMap) : ToolMap :=
  let m :=
    if message.message_type = "assistant" then
      match message.content with
      | some c =>
          match c.asArr? with
          | some items => scanContentToolUses items m
          | none => m
      | none => m
    else m
  match message.tool_use with
  | some tu =>
      match (tu.get "name").bind Json.asStr? with
      | some name =>
          let succ : Bool :=
            match message.tool_use_result with
            | some result => !(((result.get "is_error").bind Json.asBool?).getD false)
            | none => false
          bumpTool m name succ
      | none => m
  | none => m

/-- Number of `tool_use` items in a content array that name the given
tool (specification-side counter used to state what the content-array
scan accumulates). -/
def toolUseNameCount (items : List Json) (name : String) : Nat :=
  items.countP
    (fun item =>
      decide ((item.get "type").bind Json.asStr? = some "tool_use" ∧
        (item.get "name").bind Json.asStr? = some name))

/-- `str::lines().count()` on the character list of a string: the number
of newline bytes, plus one for a trailing fragment not terminated by a
newline. -/
def linesCountChars (s : List Char) : Nat :=
  match s with
  | [] => 0
  | _ => (s.count '\n') + (if s.getLast? = some '\n' then 0 else 1)

/-- `str::lines().count()`. -/
def linesCount (s : String) : Nat := linesCountChars s.data

/-- Split a character list at the first occurrence of `pat`: returns the
(shortest) pure part before the match and the remainder after the
matched characters, or `none` when `pat` does not occur. -/
def splitFirst (pat : List Char) : List Char → Option (List Char × List Char)
  | [] => if pat.isPrefixOf ([] : List Char) then some ([], []) else none
  | c :: rest =>
      if pat.isPrefixOf (c :: rest) then some ([], (c :: rest).drop pat.length)
      else (splitFirst pat rest).map (fun pr => (c :: pr.1, pr.2))

/-- `String::replacen(pat, rep, 1)` on character lists: replace only the
first occurrence of `pat`, leaving the string unchanged when `pat` does
not occur. -/
def replaceFirstChars (s pat rep : List Char) : List Char :=
  match splitFirst pat s with
  | none => s
  | some (pre, suf) => pre ++ rep ++ suf

/-- `String::replacen(pat, rep, 1)`. -/
def replaceFirst (s pat rep : String) : String :=
  ⟨replaceFirstChars s.data pat.data rep.data⟩

/-- `RecentFileEdit` (src/models/edit.rs). -/
structure RecentFileEdit where
  file_path : String
  timestamp : String
  session_id : String
  operation_type : String
  content_after_change : String
  original_content : Option String
  lines_added : Nat
  lines_removed : Nat
  cwd : Option String
deriving DecidableEq

/-- The multi-edit replay loop of `process_session_file_for_edits`
(src/commands/session/edits.rs lines 85-100): fold the `edits` array over
a running content buffer, replacing only the first occurrence of each
`old_string` and accumulating added/removed line counts.  Returns
`(content, lines_added, lines_removed)`. -/
def replayEditsJson (original : String) (editsVal : Json) : String × Nat × Nat :=
  match editsVal.asArr? with
  | some arr =>
      arr.foldl
        (fun acc e =>
          match (e.get "old_string").bind Json.asStr?,
              (e.get "new_string").bind Json.asStr? with
          | some olds, some news =>
              (replaceFirst acc.1 olds news,
               acc.2.1 + linesCount news,
               acc.2.2 + linesCount olds)
          | _, _ => acc)
        (original, 0, 0)
  | none => (original, 0, 0)

/-- Specification-side replay over already-extracted
`(old_string, new_string)` pairs: fold with first-occurrence replacement
and per-step line-count accumulation. -/
def replayPairs (original : String) (pairs : List (String × String)) : String × Nat × Nat :=
  pairs.foldl
    (fun acc p =>
      (replaceFirst acc.1 p.1 p.2,
       acc.2.1 + linesCount p.2,
       acc.2.2 + linesCount p.1))
    (original, 0, 0)

/-- The `(old_string, new_string)` pairs an `edits` array contributes, in
array order, skipping items whose fields are not both strings. -/
def extractEditPairs (arr : List Json) : List (String × String) :=
  arr.filterMap
    (fun e =>
      match (e.get "old_string").bind Json.asStr?,
          (e.get "new_string").bind Json.asStr? with
      | some olds, some news => some (olds, news)
      | _, _ => none)

/-- Edits emitted for one `toolUseResult` payload
(src/commands/session/edits.rs lines 56-139): the `"create"`-typed write
branch, then the `filePath` branch handling the multi-edit `edits` array
or the single `oldString`/`newString` pair. -/
def editsFromToolUseResult (tr : Json) (ts sid : String) (cwd : Option String) :
    List RecentFileEdit :=
  let createPart : List RecentFileEdit :=
    if (tr.get "type").bind Json.asStr? = some "create" then
      match (tr.get "filePath").bind Json.asStr?, (tr.get "content").bind Json.asStr? with
      | some fp, some content =>
          [⟨fp, ts, sid, "write", content, none, linesCount content, 0, cwd⟩]
      | _, _ => []
    else []
  let editPart : List RecentFileEdit :=
    match tr.get "filePath" with
    | some fpv =>
        match fpv.asStr? with
        | some fp =>
            match tr.get "edits" with
            | some editsVal =>
                match (tr.get "originalFile").bind Json.asStr? with
                | some original =>
                    let r := replayEditsJson original editsVal
                    [⟨fp, ts, sid, "edit", r.1, some original, r.2.1, r.2.2, cwd⟩]
                | none => []
            | none =>
                match (tr.get "oldString").bind Json.asStr?,
                    (tr.get "newString").bind Json.asStr? with
                | some olds, some news =>
                    match (tr.get "originalFile").bind Json.asStr? with
                    | some original =>
                        [⟨fp, ts, sid, "edit", replaceFirst original olds news,
                          some original, linesCount news, linesCount olds, cwd⟩]
                    | none => []
                | _, _ => []
        | none => []
    | none => []
  createPart ++ editPart

/-- Edits emitted for one `toolUse` payload
(src/commands/session/edits.rs lines 142-165): a `Write` tool invocation
with `file_path` and `content` inputs emits a write edit. -/
def editsFromToolUse (tu : Json) (ts sid : String) (cwd : Option String) :
    List RecentFileEdit :=
  match (tu.get "name").bind Json.asStr? with
  | some name =>
      if name = "Write" then
        match tu.get "input" with
        | some input =>
            match (input.get "file_path").bind Json.asStr?,
                (input.get "content").bind Json.asStr? with
            | some p, some c => [⟨p, ts, sid, "write", c, none, linesCount c, 0, cwd⟩]
            | _, _ => []
        | none => []
      else []
  | none => []

/-- All edits one parsed record contributes, in emission order
(src/commands/session/edits.rs lines 42-165). -/
def recordEdits (e : RawLogEntry) : List RecentFileEdit :=
  let ts := e.timestamp.getD ""
  let sid := e.session_id.getD "unknown"
  (match e.tool_use_result with
   | some tr => editsFromToolUseResult tr ts sid e.cwd
   | none => []) ++
  (match e.tool_use with
   | some tu => editsFromToolUse tu ts sid e.cwd
   | none => [])

/-- `*cwd_counts.entry(key).or_insert(0) += c` on an association-list
model of the per-project working-directory frequency map. -/
def bumpCwd (m : List (String × Nat)) (key : String) (c : Nat) : List (String × Nat) :=
  if m.any (fun p => p.1 = key) then
    m.map (fun p => if p.1 = key then (p.1, p.2 + c) else p)
  else m ++ [(key, c)]

/-- Per-file result of `process_session_file_for_edits`
(src/commands/session/edits.rs lines 13-16). -/
structure SessionEditsResult where
  edits : List RecentFileEdit
  cwd_counts : List (String × Nat)

/-- `process_session_file_for_edits` on the already-parsed records of one
session file (the line scanning and JSON parsing layers feed this loop;
unparseable lines are skipped before it). -/
def processSessionFile (records : List RawLogEntry) : SessionEditsResult :=
  records.foldl
    (fun acc e =>
      { edits := acc.edits ++ recordEdits e
        cwd_counts :=
          match e.cwd with
          | some c => bumpCwd acc.cwd_counts c 1
          | none => acc.cwd_counts })
    ⟨[], []⟩

/-- `max_by_key(|(_, count)| *count)` over the merged cwd counts: `none`
on an empty map; on ties the element latest in iteration order wins
(documented as an unspecified tie-break). -/
def maxByCount (m : List (String × Nat)) : Option String :=
  (m.foldl
      (fun best p =>
        match best with
        | none => some p
        | some q => if q.2 ≤ p.2 then some p else some q)
      none).map (·.1)

/-- Paginated response of `get_recent_edits`
(src/commands/session/edits.rs lines 172-181). -/
structure PaginatedRecentEdits where
  files : List RecentFileEdit
  total_edits_count : Nat
  unique_files_count : Nat
  project_cwd : Option String
  offset : Nat
  limit : Nat
  has_more : Bool
deriving DecidableEq

/-- Sort edits by timestamp descending (`sort_by(|a, b|
b.timestamp.cmp(&a.timestamp))`, a stable sort). -/
def sortEditsDesc (l : List RecentFileEdit) : List RecentFileEdit :=
  l.insertionSort (fun a b => b.timestamp ≤ a.timestamp)

/-- First-occurrence-wins deduplication by file path, modelling the
`latest_by_file.entry(path).or_insert(edit)` loop over the
timestamp-descending list. -/
def dedupFirst : List RecentFileEdit → List RecentFileEdit
  | [] => []
  | e :: rest => e :: dedupFirst (rest.filter (fun x => x.file_path ≠ e.file_path))
termination_by l => l.length
decreasing_by
  simpa using Nat.lt_succ_of_le (List.length_filter_le _ rest)

/-- The post-filter stage of `get_recent_edits`
(src/commands/session/edits.rs lines 250-281): sort descending, keep the
first (latest) edit per file path, re-sort descending, paginate, and
report the counts and the `has_more` flag. -/
def paginateEdits (filtered : List RecentFileEdit) (projectCwd : Option String)
    (offset limit : Nat) : PaginatedRecentEdits :=
  let totalEditsCount := filtered.length
  let sorted := sortEditsDesc filtered
  let deduped := dedupFirst sorted
  let uniqueFilesCount := deduped.length
  let files := sortEditsDesc deduped
  let page := (files.drop offset).take limit
  { files := page
    total_edits_count := totalEditsCount
    unique_files_count := uniqueFilesCount
    project_cwd := projectCwd
    offset := offset
    limit := limit
    has_more := decide (offset + page.length < uniqueFilesCount) }

/-- All edits detected across the project's session files, in file order
(phase 3 of `get_recent_edits`). -/
def allEditsOf (files : List (List RawLogEntry)) : List RecentFileEdit :=
  ((files.map processSessionFile).map (·.edits)).flatten

/-- The merged working-directory frequency map across all session files
(phase 3 of `get_recent_edits`). -/
def cwdCountsOf (files : List (List RawLogEntry)) : List (String × Nat) :=
  (files.map processSessionFile).foldl
    (fun m r => r.cwd_counts.foldl (fun acc p => bumpCwd acc p.1 p.2) m)
    []

/-- The most common working directory (`project_cwd`). -/
def projectCwdOf (files : List (List RawLogEntry)) : Option String :=
  maxByCount (cwdCountsOf files)

/-- The edits that survive the project-directory path-prefix filter; with
no known project cwd, the filter does not run at all (the non-Windows,
case-sensitive branch of the source). -/
def filteredEditsOf (files : List (List RawLogEntry)) : List RecentFileEdit :=
  match projectCwdOf files with
  | some cwd => (allEditsOf files).filter (fun e => e.file_path.startsWith cwd)
  | none => allEditsOf files

/-- `get_recent_edits` (src/commands/session/edits.rs lines 187-282) on
the parsed records of the project's session files. -/
def get_recent_edits (files : List (List RawLogEntry)) (offset limit : Nat) :
    PaginatedRecentEdits :=
  paginateEdits (filteredEditsOf files) (projectCwdOf files) offset limit

/-- The session-duration loop body (src/commands/stats.rs lines 270-297
and 633-665) on sorted timestamps in seconds: walk consecutive pairs,
close the current active period when the whole-minute gap exceeds the
120-minute break threshold (duration `max 1` of the whole minutes
between the period's first and last timestamp), and close the final
period after the loop.  A singleton list yields exactly 1 minute and the
empty list contributes nothing, matching the `len >= 2` / `len == 1`
split of the source. -/
def segmentGo (periodStart current : Nat) (rest : List Nat) (acc : Nat) : Nat :=
  match rest with
  | [] => acc + max 1 ((current - periodStart) / 60)
  | next :: rest' =>
      if (next - current) / 60 > 120 then
        segmentGo next next rest' (acc + max 1 ((current - periodStart) / 60))
      else
        segmentGo periodStart next rest' acc

/-- Total active minutes of a run of the session-duration loop over an
(already sorted) timestamp list. -/
def segmentLoop (ts : List Nat) : Nat :=
  match ts with
  | [] => 0
  | [_] => 1
  | t :: rest => segmentGo t t rest 0

/-- `session_timestamps.sort()` followed by the duration loop: the
session-duration computation as the source runs it. -/
def sessionActiveMinutes (ts : List Nat) : Nat :=
  segmentLoop (ts.insertionSort (· ≤ ·))

/-- Specification-side splitting of a timestamp sequence into active
periods: start a new period after every consecutive whole-minute gap
exceeding 120 minutes. -/
def splitGo (cur : List Nat) (last : Nat) : List Nat → List (List Nat)
  | [] => [cur.reverse]
  | next :: rest =>
      if (next - last) / 60 > 120 then cur.reverse :: splitGo [next] next rest
      else splitGo (next :: cur) next rest

/-- The active periods of a timestamp sequence. -/
def splitPeriods : List Nat → List (List Nat)
  | [] => []
  | t :: rest => splitGo [t] t rest

/-- Duration credited to one active period: the whole minutes between its
first and last timestamp, floored at 1 minute. -/
def periodMinutes (p : List Nat) : Nat :=
  max 1 ((p.getLast?.getD 0 - p.head?.getD 0) / 60)

/-- Positions of newline bytes in a byte buffer, in increasing order
(`memchr_iter(b'\n', data)`). -/
def newlinePositions (data : List Nat) : List Nat :=
  (List.range data.length).filter (fun i => decide (data.getD i 0 = 10))

/-- The `find_line_ranges` loop (src/utils.rs lines 14-31) over the
newline positions: emit `(start, pos)` for every newline at `pos` past
`start` (skipping empty lines), then the final unterminated line. -/
def flrGo (len : Nat) : List Nat → Nat → List (Nat × Nat)
  | [], start => if start < len then [(start, len)] else []
  | p :: ps, start =>
      (if start < p then [(start, p)] else []) ++ flrGo len ps (p + 1)

/-- `find_line_ranges` (src/utils.rs lines 14-31): the `(start, end)`
byte-offset pairs of the non-empty lines of a buffer. -/
def find_line_ranges (data : List Nat) : List (Nat × Nat) :=
  flrGo data.length (newlinePositions data) 0

/-- A non-empty maximal newline-free segment of the buffer: non-empty,
in bounds, containing no newline byte, and delimited on each side by a
newline byte or the buffer boundary. -/
def IsLineRange (data : List Nat) (s e : Nat) : Prop :=
  s < e ∧ e ≤ data.length ∧
  (∀ i, s ≤ i → i < e → data.getD i 0 ≠ 10) ∧
  (s = 0 ∨ data.getD (s - 1) 0 = 10) ∧
  (e = data.length ∨ data.getD e 0 = 10)

/-- A filesystem mutation `restore_file` would perform, in order. -/
inductive FsAction where
  | createDirAll (path : String)
  | writeFile (path content : String)
  | atomicRename (src dst : String)
deriving DecidableEq

/-- `file_path.contains('\0')`, computed on the character list. -/
def containsNullByte (p : String) : Bool :=
  p.data.any (fun ch => ch == Char.ofNat 0)

/-- `Path::is_absolute()` on Unix: the path starts with the root
separator. -/
def pathIsAbsolute (p : String) : Bool :=
  p.data.head? == some '/'

/-- Split a character list on the `/` separator. -/
def splitOnSlash : List Char → List (List Char)
  | [] => [[]]
  | c :: rest =>
      let r := splitOnSlash rest
      if c = '/' then [] :: r
      else (c :: r.headD []) :: r.tail

/-- `Path::components()` contains a `ParentDir` component: some
slash-separated segment is exactly `..`. -/
def hasParentComponent (p : String) : Bool :=
  (splitOnSlash p.data).any (fun c => c == ['.', '.'])

/-- `Path::parent()` as a string: the path with its last slash-separated
component removed. -/
def parentOf (p : String) : String :=
  String.intercalate "/" ((p.splitOn "/").dropLast)

/-- `Path::with_extension("tmp.restore")` on the file name's last
component: replace the portion after the last dot (if the component has
an extension), otherwise append the extension. -/
def tempPathOf (p : String) : String :=
  let comps := p.splitOn "/"
  let name := comps.getLast?.getD ""
  let stem :=
    if (name.splitOn ".").length ≥ 2 && !name.startsWith "." then
      String.intercalate "." ((name.splitOn ".").dropLast)
    else name
  String.intercalate "/" (comps.dropLast ++ [stem ++ ".tmp.restore"])

/-- `restore_file` (src/commands/session/edits.rs lines 291-329).  The
security validations run in source order before any filesystem access;
the success branch is the trace of mutations the code performs (create
parent directories, write the temp file, atomically rename it over the
target).  An error reports the source's message and performs no
mutation. -/
def restore_file (file_path content : String) : Except String (List FsAction) :=
  if containsNullByte file_path then
    .error "Invalid file path: contains null bytes"
  else if !pathIsAbsolute file_path then
    .error "Invalid file path: must be an absolute path"
  else if hasParentComponent file_path then
    .error "Invalid file path: path traversal not allowed"
  else
    .ok [.createDirAll (parentOf file_path),
         .writeFile (tempPathOf file_path) content,
         .atomicRename (tempPathOf file_path) file_path]

/-- A canonical message with every optional field absent, used as the
base of the concrete sample messages below. -/
def baseMsg : ClaudeMessage :=
  ⟨"u", none, "s", "t", "user", none, none, none, none, none, none, none, none, none⟩

/-- A raw log entry with every optional field absent. -/
def baseEntry : RawLogEntry :=
  ⟨none, none, none, none, "user", none, none, none, none, none⟩

/-- Sample message carrying both a message-level usage object and a
tool-result usage object reporting a different input count. -/
def msgC1 : ClaudeMessage :=
  { baseMsg with
    usage := some ⟨some 1, none, none, none, none⟩
    tool_use_result := some (.obj [("usage", .obj [("input_tokens", .num 5)])]) }

/-- Sample tool-result usage object carrying all four token fields. -/
def uoC1w : Json :=
  .obj [("input_tokens", .num 5), ("output_tokens", .num 6),
        ("cache_creation_input_tokens", .num 7), ("cache_read_input_tokens", .num 8)]

/-- Sample tool-result payload wrapping `uoC1w`. -/
def trC1w : Json := .obj [("usage", uoC1w)]

/-- Sample message with no message-level usage and a tool-result usage
object. -/
def msgC1w : ClaudeMessage := { baseMsg with tool_use_result := some trC1w }

/-- Sample content-array item representing a `tool_use` of the `Bash`
tool. -/
def toolItemC2 : Json := .obj [("type", .str "tool_use"), ("name", .str "Bash")]

/-- Sample assistant message whose content array holds one `tool_use`
item and that carries no top-level tool-invocation payload. -/
def msgAsstC2 : ClaudeMessage :=
  { baseMsg with message_type := "assistant", content := some (.arr [toolItemC2]) }

/-- Sample top-level tool-invocation payload naming the `Bash` tool. -/
def tuC2 : Json := .obj [("name", .str "Bash")]

/-- Sample non-assistant message with a top-level tool invocation and a
tool result without an error flag. -/
def msgUserC2 : ClaudeMessage :=
  { baseMsg with tool_use := some tuC2, tool_use_result := some (.obj []) }

/-- Sample tool-result payload carrying only a `totalTokens` scalar. -/
def trTotC6 : Json := .obj [("totalTokens", .num 7)]

/-- Sample assistant message with an all-absent message-level usage
object and a `totalTokens`-only tool result. -/
def msgC6 : ClaudeMessage :=
  { baseMsg with
    message_type := "assistant"
    usage := some ⟨none, none, none, none, none⟩
    tool_use_result := some trTotC6 }

/-- Sample assistant message with no message-level usage and a
`totalTokens`-only tool result. -/
def msgC6w : ClaudeMessage :=
  { baseMsg with message_type := "assistant", tool_use_result := some trTotC6 }

/-- Sample non-assistant message with no message-level usage and a
`totalTokens`-only tool result. -/
def msgC6u : ClaudeMessage := { baseMsg with tool_use_result := some trTotC6 }

/-- Sample raw entry whose identity fields are present but empty. -/
def entryEmptyIds : RawLogEntry :=
  { baseEntry with
    uuid := some ""
    session_id := some ""
    timestamp := some "2025-01-01T00:00:00Z" }

/-- Sample raw entry with identifier and session id absent and a
timestamp present. -/
def entryDefaultsC7 : RawLogEntry :=
  { baseEntry with timestamp := some "2025-01-01T00:00:00Z" }

/-- Sample edits used to exercise the recent-edits deduplication: two
edits of file `/p/a` at distinct timestamps and one of `/p/b`. -/
def editA1 : RecentFileEdit :=
  ⟨"/p/a", "2025-01-01T10:00:00Z", "s", "edit", "v1", some "v0", 1, 1, none⟩

/-- The later edit of `/p/a`. -/
def editA2 : RecentFileEdit :=
  ⟨"/p/a", "2025-01-01T11:00:00Z", "s", "edit", "v2", some "v1", 1, 1, none⟩

/-- A write of `/p/b` between the two edits of `/p/a`. -/
def editB1 : RecentFileEdit :=
  ⟨"/p/b", "2025-01-01T10:30:00Z", "s", "write", "w", none, 1, 0, none⟩

/-- Sample multi-edit tool-result payload: edits
`[{old:"a",new:"b"},{old:"b",new:"c"}]` against original `"a"`. -/
def editsArrC4 : Json :=
  .arr [.obj [("old_string", .str "a"), ("new_string", .str "b")],
        .obj [("old_string", .str "b"), ("new_string", .str "c")]]

/-- The sample payload wrapping `editsArrC4`. -/
def trC4 : Json :=
  .obj [("filePath", .str "/f"), ("edits", editsArrC4), ("originalFile", .str "a")]

/-- Sample parsed record carrying a single-edit tool result and no
working-directory field. -/
def recC10 : RawLogEntry :=
  { baseEntry with
    session_id := some "s"
    timestamp := some "2025-01-01T10:00:00Z"
    tool_use_result := some (.obj [("filePath", .str "/p/a"), ("oldString", .str "x"),
                                   ("newString", .str "y"), ("originalFile", .str "x")]) }

/-- A sample post-filter edit list: two edits of `/p/a` at distinct
timestamps around one write of `/p/b`. -/
def filteredC3 : List RecentFileEdit := [editA1, editB1, editA2]

/-- The timestamp-descending comparison used by the recent-edits sort is
total. -/
instance : IsTotal RecentFileEdit (fun a b => b.timestamp ≤ a.timestamp) :=
  ⟨fun a b => le_total b.timestamp a.timestamp⟩

/-- The timestamp-descending comparison used by the recent-edits sort is
transitive. -/
instance : IsTrans RecentFileEdit (fun a b => b.timestamp ≤ a.timestamp) :=
  ⟨fun _ _ _ hab hbc => le_trans hbc hab⟩

/-- C9: for every input path containing an embedded null byte, or not
absolute, or containing a parent-directory traversal component,
`restore_file` returns the corresponding descriptive error (the checks
run in source order) and performs no filesystem mutation — the error
branch emits no filesystem actions. -/
theorem restore_file_error_cases (p c : String) :
    (containsNullByte p = true →
       restore_file p c = .error "Invalid file path: contains null bytes") ∧
    (containsNullByte p = false → pathIsAbsolute p = false →
       restore_file p c = .error "Invalid file path: must be an absolute path") ∧
    (containsNullByte p = false → pathIsAbsolute p = true → hasParentComponent p = true →
       restore_file p c = .error "Invalid file path: path traversal not allowed") ∧
    ((containsNullByte p = true ∨ pathIsAbsolute p = false ∨ hasParentComponent p = true) →
       ∃ msg, restore_file p c = .error msg) := by
  refine ⟨?_, ?_, ?_, ?_⟩
  · intro h; simp [restore_file, h]
  · intro h1 h2; simp [restore_file, h1, h2]
  · intro h1 h2 h3; simp [restore_file, h1, h2, h3]
  · intro h
    rcases h with h | h | h
    · exact ⟨"Invalid file path: contains null bytes", by simp [restore_file, h]⟩
    · by_cases hn : containsNullByte p = true
      · exact ⟨"Invalid file path: contains null bytes", by simp [restore_file, hn]⟩
      · exact ⟨"Invalid file path: must be an absolute path",
          by simp [restore_file, h, eq_false_of_ne_true hn]⟩
    · by_cases hn : containsNullByte p = true
      · exact ⟨"Invalid file path: contains null bytes", by simp [restore_file, hn]⟩
      · by_cases ha : pathIsAbsolute p = true
        · exact ⟨"Invalid file path: path traversal not allowed",
            by simp [restore_file, eq_false_of_ne_true hn, ha, h]⟩
        · exact ⟨"Invalid file path: must be an absolute path",
            by simp [restore_file, eq_false_of_ne_true hn, eq_false_of_ne_true ha]⟩

theorem restore_file_error_cases_witness :
    restore_file "/tmp/test\x00file.txt" "content" =
      .error "Invalid file path: contains null bytes" ∧
    restore_file "relative/path/file.txt" "content" =
      .error "Invalid file path: must be an absolute path" ∧
    restore_file "/tmp/../etc/passwd" "content" =
      .error "Invalid file path: path traversal not allowed" :=
  ⟨(restore_file_error_cases "/tmp/test\x00file.txt" "content").1 (by decide),
   (restore_file_error_cases "relative/path/file.txt" "content").2.1 (by decide) (by decide),
   (restore_file_error_cases "/tmp/../etc/passwd" "content").2.2.1
     (by decide) (by decide) (by decide)⟩

theorem segmentGo_splitGo (rest : List Nat) :
    ∀ (cur : List Nat) (periodStart current acc : Nat),
      cur.head? = some current → cur.getLast? = some periodStart →
      segmentGo periodStart current rest acc =
        acc + ((splitGo cur current rest).map periodMinutes).sum := by
  induction rest with
  | nil =>
      intro cur periodStart current acc hh hl
      simp only [segmentGo, splitGo, List.map_cons, List.map_nil, List.sum_cons,
        List.sum_nil, Nat.add_zero, periodMinutes, List.getLast?_reverse,
        List.head?_reverse, hh, hl, Option.getD_some]
  | cons next rest ih =>
      intro cur periodStart current acc hh hl
      by_cases hgap : (next - current) / 60 > 120
      · simp only [segmentGo, splitGo, if_pos hgap]
        rw [ih [next] next next _ rfl rfl, List.map_cons, List.sum_cons, ← Nat.add_assoc]
        congr 1
        simp only [periodMinutes, List.getLast?_reverse, List.head?_reverse, hh, hl,
          Option.getD_some]
      · simp only [segmentGo, splitGo, if_neg hgap]
        rcases cur with _ | ⟨c, cs⟩
        · simp at hh
        · have hc : c = current := by simpa using hh
          subst hc
          exact ih (next :: c :: cs) periodStart next acc rfl
            (by simpa [List.getLast?_cons_cons] using hl)

/-- C5: the session-duration computation splits the (sorted) timestamp
sequence into active periods at every consecutive gap whose whole-minute
length exceeds 120 minutes and sums `max 1` of the whole minutes between
each period's first and last timestamp; a single timestamp yields
exactly 1 minute, and two timestamps 150 minutes (9000 seconds) apart
yield two 1-minute periods, total 2 minutes. -/
theorem session_duration_gap_split :
    (∀ ts : List Nat, segmentLoop ts = ((splitPeriods ts).map periodMinutes).sum) ∧
    (∀ t : Nat, sessionActiveMinutes [t] = 1) ∧
    (∀ t : Nat, sessionActiveMinutes [t, t + 9000] = 2) := by
  refine ⟨?_, ?_, ?_⟩
  · intro ts
    match ts with
    | [] => simp [segmentLoop, splitPeriods]
    | [t] => simp [segmentLoop, splitPeriods, splitGo, periodMinutes]
    | t :: next :: rest =>
        rw [show segmentLoop (t :: next :: rest) = segmentGo t t (next :: rest) 0 from rfl]
        rw [segmentGo_splitGo (next :: rest) [t] t t 0 rfl rfl]
        simp [splitPeriods]
  · intro t
    simp [sessionActiveMinutes, segmentLoop]
  · intro t
    have hsort : ([t, t + 9000].insertionSort (· ≤ ·)) = [t, t + 9000] := by
      simp [List.insertionSort, List.orderedInsert, Nat.le_add_right]
    rw [sessionActiveMinutes, hsort]
    have hgap : (t + 9000 - t) / 60 > 120 := by
      rw [Nat.add_sub_cancel_left]; norm_num
    have : segmentLoop [t, t + 9000] = segmentGo t t [t + 9000] 0 := rfl
    rw [this]
    simp only [segmentGo, if_pos hgap, Nat.sub_self, Nat.zero_div, Nat.zero_add]
    decide

theorem scanContentToolUses_apply (items : List Json) :
    ∀ (m : ToolMap) (name : String),
      scanContentToolUses items m name =
        ((m name).1 + toolUseNameCount items name,
         (m name).2 + toolUseNameCount items name) := by
  induction items with
  | nil => intro m name; simp [scanContentToolUses, toolUseNameCount]
  | cons item rest ih =>
      intro m name
      have hcount : toolUseNameCount (item :: rest) name =
          toolUseNameCount rest name +
            (if ((item.get "type").bind Json.asStr? = some "tool_use" ∧
                 (item.get "name").bind Json.asStr? = some name) then 1 else 0) := by
        simp [toolUseNameCount, List.countP_cons]
      have hstep : scanContentToolUses (item :: rest) m =
          scanContentToolUses rest
            (match (item.get "type").bind Json.asStr? with
             | some t =>
                 if t = "tool_use" then
                   match (item.get "name").bind Json.asStr? with
                   | some nm => bumpTool m nm true
                   | none => m
                 else m
             | none => m) := rfl
      rw [hstep, ih]
      cases hty : (item.get "type").bind Json.asStr? with
      | none => simp [hcount, hty]
      | some t =>
          by_cases ht : t = "tool_use"
          · subst ht
            cases hnm : (item.get "name").bind Json.asStr? with
            | none => simp [hcount, hty, hnm]
            | some nm =>
                by_cases hn : nm = name
                · subst hn
                  simp [hcount, hty, hnm, bumpTool]
                  omega
                · have : ¬((item.get "type").bind Json.asStr? = some "tool_use" ∧
                      (item.get "name").bind Json.asStr? = some name) := by
                    rw [hnm]; simp [hn]
                  have hn' : name ≠ nm := fun h => hn h.symm
                  simp [hcount, hty, hnm, bumpTool, hn, hn']
          · have : ¬((item.get "type").bind Json.asStr? = some "tool_use" ∧
                (item.get "name").bind Json.asStr? = some name) := by
              rw [hty]; simp [ht]
            simp [hcount, hty, ht, this]

/-- C2: on the assistant content-array path every `tool_use` item naming
a tool bumps that tool's usage counter and, unconditionally, its success
counter; independently, a top-level tool-invocation payload naming a tool
bumps its usage counter and bumps its success counter exactly when a tool
result accompanies the message without its explicit error flag set — in
particular the success counter grows only when the accompanying tool
result does not carry an error flag. -/
theorem tool_usage_accounting (m : ToolMap) (name : String) :
    (∀ (msg : ClaudeMessage) (items : List Json),
       msg.message_type = "assistant" → msg.content = some (Json.arr items) →
       msg.tool_use = none →
       updateToolUsage msg m name =
         ((m name).1 + toolUseNameCount items name,
          (m name).2 + toolUseNameCount items name)) ∧
    (∀ (msg : ClaudeMessage) (tu : Json),
       msg.message_type ≠ "assistant" → msg.tool_use = some tu →
       (tu.get "name").bind Json.asStr? = some name →
       (updateToolUsage msg m name).1 = (m name).1 + 1 ∧
       ((updateToolUsage msg m name).2 = (m name).2 + 1 ↔
          ∃ r, msg.tool_use_result = some r ∧
            ((r.get "is_error").bind Json.asBool?).getD false = false) ∧
       ((m name).2 < (updateToolUsage msg m name).2 →
          ∃ r, msg.tool_use_result = some r ∧
            (r.get "is_error").bind Json.asBool? ≠ some true)) := by
  constructor
  · intro msg items hty hc htu
    simp only [updateToolUsage, hty, if_pos rfl, hc, Json.asArr?, htu]
    exact scanContentToolUses_apply items m name
  · intro msg tu hty htu hname
    have hupd : updateToolUsage msg m =
        bumpTool m name
          (match msg.tool_use_result with
           | some result => !(((result.get "is_error").bind Json.asBool?).getD false)
           | none => false) := by
      simp only [updateToolUsage, if_neg hty, htu, hname]
    refine ⟨by rw [hupd]; simp [bumpTool], ?_, ?_⟩
    · cases hres : msg.tool_use_result with
      | none =>
          rw [hres] at hupd
          rw [hupd]
          simp [bumpTool]
      | some r =>
          rw [hres] at hupd
          cases hgd : ((r.get "is_error").bind Json.asBool?).getD false with
          | false =>
              have hv : (updateToolUsage msg m) name = ((m name).1 + 1, (m name).2 + 1) := by
                rw [hupd]; simp [bumpTool, hgd]
              rw [hv]
              exact ⟨fun _ => ⟨r, rfl, hgd⟩, fun _ => rfl⟩
          | true =>
              have hv : (updateToolUsage msg m) name = ((m name).1 + 1, (m name).2) := by
                rw [hupd]; simp [bumpTool, hgd]
              rw [hv]
              constructor
              · intro h; exact absurd h (by omega)
              · rintro ⟨r', hr', hgd'⟩
                injection hr' with hr''
                subst hr''
                rw [hgd'] at hgd
                cases hgd
    · intro hlt
      cases hres : msg.tool_use_result with
      | none =>
          rw [hres] at hupd
          rw [hupd] at hlt
          simp [bumpTool] at hlt
      | some r =>
          rw [hres] at hupd
          refine ⟨r, rfl, ?_⟩
          cases hgd : ((r.get "is_error").bind Json.asBool?).getD false with
          | false =>
              cases hb : (r.get "is_error").bind Json.asBool? with
              | none => simp
              | some b =>
                  rw [hb] at hgd
                  simp only [Option.getD_some] at hgd
                  simp [hgd]
          | true =>
              rw [hupd] at hlt
              simp only [hgd] at hlt
              simp [bumpTool] at hlt

theorem tool_usage_accounting_witness :
    updateToolUsage msgAsstC2 (fun _ => (0, 0)) "Bash" = (1, 1) ∧
    (updateToolUsage msgUserC2 (fun _ => (0, 0)) "Bash").1 = 1 ∧
    ((updateToolUsage msgUserC2 (fun _ => (0, 0)) "Bash").2 = 1 ↔
       ∃ r, msgUserC2.tool_use_result = some r ∧
         ((r.get "is_error").bind Json.asBool?).getD false = false) :=
  ⟨(tool_usage_accounting (fun _ => (0, 0)) "Bash").1 msgAsstC2 [toolItemC2] rfl rfl rfl,
   ((tool_usage_accounting (fun _ => (0, 0)) "Bash").2 msgUserC2 tuC2
      (by decide) rfl rfl).1,
   ((tool_usage_accounting (fun _ => (0, 0)) "Bash").2 msgUserC2 tuC2
      (by decide) rfl rfl).2.1⟩

theorem applyToolResultUsage_eq (uo : Json) (u : TokenUsage) :
    applyToolResultUsage uo u =
      { input_tokens := ((uo.get "input_tokens").bind Json.asU64?).elim u.input_tokens
          (fun n => some (n % 2 ^ 32))
        output_tokens := ((uo.get "output_tokens").bind Json.asU64?).elim u.output_tokens
          (fun n => some (n % 2 ^ 32))
        cache_creation_input_tokens :=
          ((uo.get "cache_creation_input_tokens").bind Json.asU64?).elim
            u.cache_creation_input_tokens (fun n => some (n % 2 ^ 32))
        cache_read_input_tokens :=
          ((uo.get "cache_read_input_tokens").bind Json.asU64?).elim
            u.cache_read_input_tokens (fun n => some (n % 2 ^ 32))
        service_tier := u.service_tier } := by
  unfold applyToolResultUsage
  cases hi : (uo.get "input_tokens").bind Json.asU64? <;>
    cases ho : (uo.get "output_tokens").bind Json.asU64? <;>
      cases hc : (uo.get "cache_creation_input_tokens").bind Json.asU64? <;>
        cases hr : (uo.get "cache_read_input_tokens").bind Json.asU64? <;>
          simp

theorem extract_token_usage_none_eq (msg : ClaudeMessage) (h : msg.usage = none) :
    extract_token_usage msg =
      (match msg.tool_use_result with
       | some tr =>
           match (tr.get "totalTokens").bind Json.asU64? with
           | some t =>
               if (resolveUsagePreFallback msg).input_tokens = none ∧
                  (resolveUsagePreFallback msg).output_tokens = none then
                 if msg.message_type = "assistant" then
                   { resolveUsagePreFallback msg with output_tokens := some (t % 2 ^ 32) }
                 else
                   { resolveUsagePreFallback msg with input_tokens := some (t % 2 ^ 32) }
               else resolveUsagePreFallback msg
           | none => resolveUsagePreFallback msg
       | none => resolveUsagePreFallback msg) := by
  unfold extract_token_usage
  rw [h]


theorem extract_token_usage_none_some_eq (msg : ClaudeMessage) (tr : Json)
    (h : msg.usage = none) (htr : msg.tool_use_result = some tr) :
    extract_token_usage msg =
      (match (tr.get "totalTokens").bind Json.asU64? with
       | some t =>
           if (resolveUsagePreFallback msg).input_tokens = none ∧
              (resolveUsagePreFallback msg).output_tokens = none then
             if msg.message_type = "assistant" then
               { resolveUsagePreFallback msg with output_tokens := some (t % 2 ^ 32) }
             else
               { resolveUsagePreFallback msg with input_tokens := some (t % 2 ^ 32) }
           else resolveUsagePreFallback msg
       | none => resolveUsagePreFallback msg) := by
  unfold extract_token_usage
  rw [h, htr]

theorem resolve_toolresult_decomp (msg : ClaudeMessage) (tr uo : Json)
    (htr : msg.tool_use_result = some tr) (huo : tr.get "usage" = some uo) :
    ∃ u0, resolveUsagePreFallback msg = applyToolResultUsage uo u0 := by
  refine ⟨(match
      (match msg.content with
       | some content =>
           if content.isObject && (content.get "usage").isSome then content.get "usage"
           else none
       | none => none) with
    | some uoc => applyContentUsage uoc ⟨none, none, none, none, none⟩
    | none => ⟨none, none, none, none, none⟩), ?_⟩
  unfold resolveUsagePreFallback
  rw [htr]
  simp only [huo]

/-- C1 (amended): when a message-level usage object is present,
`extract_token_usage` returns it unchanged — the tool-result usage object
is ignored; when no message-level usage object is present, tool-result
usage fields are unconditionally applied after the content-level step,
overwriting the content-level values for input, output, cache-creation
and cache-read tokens. -/
theorem extract_usage_precedence (msg : ClaudeMessage) :
    (∀ u, msg.usage = some u → extract_token_usage msg = u) ∧
    (∀ tr uo, msg.usage = none → msg.tool_use_result = some tr →
       tr.get "usage" = some uo →
       (∀ a, (uo.get "input_tokens").bind Json.asU64? = some a →
          (extract_token_usage msg).input_tokens = some (a % 2 ^ 32)) ∧
       (∀ b, (uo.get "output_tokens").bind Json.asU64? = some b →
          (extract_token_usage msg).output_tokens = some (b % 2 ^ 32)) ∧
       (∀ c, (uo.get "cache_creation_input_tokens").bind Json.asU64? = some c →
          (extract_token_usage msg).cache_creation_input_tokens = some (c % 2 ^ 32)) ∧
       (∀ d, (uo.get "cache_read_input_tokens").bind Json.asU64? = some d →
          (extract_token_usage msg).cache_read_input_tokens = some (d % 2 ^ 32))) := by
  constructor
  · intro u hu
    unfold extract_token_usage
    rw [hu]
  · intro tr uo hnone htr huo
    obtain ⟨u0, hres⟩ := resolve_toolresult_decomp msg tr uo htr huo
    rw [extract_token_usage_none_some_eq msg tr hnone htr]
    refine ⟨?_, ?_, ?_, ?_⟩
    · intro a ha
      have hinp : (resolveUsagePreFallback msg).input_tokens = some (a % 2 ^ 32) := by
        rw [hres, applyToolResultUsage_eq, ha]
        rfl
      cases htot : (tr.get "totalTokens").bind Json.asU64? with
      | none => exact hinp
      | some t =>
          dsimp only
          rw [if_neg (by rw [hinp]; rintro ⟨h1, _⟩; cases h1)]
          exact hinp
    · intro b hb
      have hout : (resolveUsagePreFallback msg).output_tokens = some (b % 2 ^ 32) := by
        rw [hres, applyToolResultUsage_eq, hb]
        rfl
      cases htot : (tr.get "totalTokens").bind Json.asU64? with
      | none => exact hout
      | some t =>
          dsimp only
          rw [if_neg (by rw [hout]; rintro ⟨_, h2⟩; cases h2)]
          exact hout
    · intro c hc
      have hcc : (resolveUsagePreFallback msg).cache_creation_input_tokens =
          some (c % 2 ^ 32) := by
        rw [hres, applyToolResultUsage_eq, hc]
        rfl
      cases htot : (tr.get "totalTokens").bind Json.asU64? with
      | none => exact hcc
      | some t =>
          dsimp only
          by_cases hcond : (resolveUsagePreFallback msg).input_tokens = none ∧
              (resolveUsagePreFallback msg).output_tokens = none
          · rw [if_pos hcond]
            by_cases hty : msg.message_type = "assistant"
            · rw [if_pos hty]; exact hcc
            · rw [if_neg hty]; exact hcc
          · rw [if_neg hcond]; exact hcc
    · intro d hd
      have hcr : (resolveUsagePreFallback msg).cache_read_input_tokens =
          some (d % 2 ^ 32) := by
        rw [hres, applyToolResultUsage_eq, hd]
        rfl
      cases htot : (tr.get "totalTokens").bind Json.asU64? with
      | none => exact hcr
      | some t =>
          dsimp only
          by_cases hcond : (resolveUsagePreFallback msg).input_tokens = none ∧
              (resolveUsagePreFallback msg).output_tokens = none
          · rw [if_pos hcond]
            by_cases hty : msg.message_type = "assistant"
            · rw [if_pos hty]; exact hcr
            · rw [if_neg hty]; exact hcr
          · rw [if_neg hcond]; exact hcr

/-- C1 counterexample: `msgC1` carries a message-level usage object with
input 1 and a tool-result usage object with input 5, yet
`extract_token_usage` reports input 1 — the tool-result usage does not
overwrite the message-level value, contradicting the claim. -/
theorem extract_usage_precedence_counterexample :
    msgC1.usage = some ⟨some 1, none, none, none, none⟩ ∧
    (msgC1.tool_use_result.bind (fun tr => (tr.get "usage").bind
       (fun uo => (uo.get "input_tokens").bind Json.asU64?))) = some 5 ∧
    (extract_token_usage msgC1).input_tokens = some 1 ∧
    (extract_token_usage msgC1).input_tokens ≠ some 5 :=
  ⟨rfl, rfl, rfl, by decide⟩

theorem extract_usage_precedence_witness :
    extract_token_usage msgC1 = ⟨some 1, none, none, none, none⟩ ∧
    (extract_token_usage msgC1w).input_tokens = some (5 % 2 ^ 32) ∧
    (extract_token_usage msgC1w).output_tokens = some (6 % 2 ^ 32) ∧
    (extract_token_usage msgC1w).cache_creation_input_tokens = some (7 % 2 ^ 32) ∧
    (extract_token_usage msgC1w).cache_read_input_tokens = some (8 % 2 ^ 32) :=
  ⟨(extract_usage_precedence msgC1).1 ⟨some 1, none, none, none, none⟩ rfl,
   ((extract_usage_precedence msgC1w).2 trC1w uoC1w rfl rfl rfl).1 5 rfl,
   ((extract_usage_precedence msgC1w).2 trC1w uoC1w rfl rfl rfl).2.1 6 rfl,
   ((extract_usage_precedence msgC1w).2 trC1w uoC1w rfl rfl rfl).2.2.1 7 rfl,
   ((extract_usage_precedence msgC1w).2 trC1w uoC1w rfl rfl rfl).2.2.2 8 rfl⟩

/-- C6 (amended): for a message carrying no message-level usage object
whose usage resolved from the content-level and tool-result usage
objects has neither input nor output tokens, a numeric `totalTokens`
scalar on the tool-result payload is attributed entirely to output
tokens when the message type is assistant and to input tokens
otherwise. -/
theorem total_tokens_fallback (msg : ClaudeMessage) (tr : Json) (t : Nat)
    (hu : msg.usage = none) (htr : msg.tool_use_result = some tr)
    (ht : (tr.get "totalTokens").bind Json.asU64? = some t)
    (hi : (resolveUsagePreFallback msg).input_tokens = none)
    (ho : (resolveUsagePreFallback msg).output_tokens = none) :
    (msg.message_type = "assistant" →
       extract_token_usage msg =
         { resolveUsagePreFallback msg with output_tokens := some (t % 2 ^ 32) }) ∧
    (msg.message_type ≠ "assistant" →
       extract_token_usage msg =
         { resolveUsagePreFallback msg with input_tokens := some (t % 2 ^ 32) }) := by
  rw [extract_token_usage_none_some_eq msg tr hu htr, ht]
  dsimp only
  rw [if_pos ⟨hi, ho⟩]
  constructor
  · intro hty; rw [if_pos hty]
  · intro hty; rw [if_neg hty]

/-- C6 counterexample: `msgC6` is an assistant message whose resolved
usage has neither input nor output tokens (its message-level usage
object is present but all-absent) and whose tool result carries
`totalTokens` 7, yet `extract_token_usage` leaves output tokens absent
instead of attributing the 7 — the message-level usage object's early
return skips the fallback, contradicting the claim. -/
theorem total_tokens_fallback_counterexample :
    msgC6.usage = some ⟨none, none, none, none, none⟩ ∧
    (msgC6.tool_use_result.bind (fun tr => (tr.get "totalTokens").bind Json.asU64?)) =
      some 7 ∧
    msgC6.message_type = "assistant" ∧
    (extract_token_usage msgC6).input_tokens = none ∧
    (extract_token_usage msgC6).output_tokens = none :=
  ⟨rfl, rfl, rfl, rfl, rfl⟩

theorem total_tokens_fallback_witness :
    extract_token_usage msgC6w =
      { resolveUsagePreFallback msgC6w with output_tokens := some (7 % 2 ^ 32) } ∧
    extract_token_usage msgC6u =
      { resolveUsagePreFallback msgC6u with input_tokens := some (7 % 2 ^ 32) } :=
  ⟨(total_tokens_fallback msgC6w trTotC6 7 rfl rfl rfl rfl rfl).1 rfl,
   (total_tokens_fallback msgC6u trTotC6 7 rfl rfl rfl rfl rfl).2 (by decide)⟩

/-- C7 (amended): canonicalization rejects a raw record exactly when its
type tag is `summary` or both its session id and timestamp are absent;
every other record succeeds (the conversion is total, so it cannot
panic), with a missing identifier defaulted to the freshly generated
unique value, a missing session id to the sentinel `unknown-session`,
and a missing timestamp to the current process time — and the resulting
identifier, session id and timestamp are non-empty provided every one of
those fields that is present in the raw record is itself non-empty (a
present-but-empty field is passed through unchanged). -/
theorem canonicalize_rejects_exactly (freshUuid nowRfc3339 : String) (e : RawLogEntry)
    (hf : freshUuid ≠ "") (hn : nowRfc3339 ≠ "")
    (hu : ∀ s, e.uuid = some s → s ≠ "")
    (hs : ∀ s, e.session_id = some s → s ≠ "")
    (ht : ∀ s, e.timestamp = some s → s ≠ "") :
    ((tryFromRawLogEntry freshUuid nowRfc3339 e).isErr = true ↔
       e.message_type = "summary" ∨ (e.session_id = none ∧ e.timestamp = none)) ∧
    (e.message_type ≠ "summary" → ¬(e.session_id = none ∧ e.timestamp = none) →
       ∃ m, tryFromRawLogEntry freshUuid nowRfc3339 e = .ok m ∧
         m.uuid = e.uuid.getD freshUuid ∧
         m.session_id = e.session_id.getD "unknown-session" ∧
         m.timestamp = e.timestamp.getD nowRfc3339 ∧
         m.uuid ≠ "" ∧ m.session_id ≠ "" ∧ m.timestamp ≠ "") := by
  constructor
  · by_cases h1 : e.message_type = "summary"
    · simp [tryFromRawLogEntry, h1, Except.isErr]
    · by_cases h2 : e.session_id = none ∧ e.timestamp = none
      · simp [tryFromRawLogEntry, h1, h2, Except.isErr]
      · simp [tryFromRawLogEntry, h1, h2, Except.isErr]
  · intro h1 h2
    have heq : tryFromRawLogEntry freshUuid nowRfc3339 e = .ok
        { uuid := e.uuid.getD freshUuid
          parent_uuid := e.parent_uuid
          session_id := e.session_id.getD "unknown-session"
          timestamp := e.timestamp.getD nowRfc3339
          message_type := e.message_type
          content := e.message.map (·.content)
          tool_use := e.tool_use
          tool_use_result := e.tool_use_result
          is_sidechain := e.is_sidechain
          usage := e.message.bind (·.usage)
          role := e.message.map (·.role)
          message_id := e.message.bind (·.id)
          model := e.message.bind (·.model)
          stop_reason := e.message.bind (·.stop_reason) } := by
      simp [tryFromRawLogEntry, h1, h2]
    refine ⟨_, heq, rfl, rfl, rfl, ?_, ?_, ?_⟩
    · cases huu : e.uuid with
      | none => simpa [huu] using hf
      | some s => simpa [huu] using hu s huu
    · cases hss : e.session_id with
      | none => simp [hss]
      | some s => simpa [hss] using hs s hss
    · cases htt : e.timestamp with
      | none => simpa [htt] using hn
      | some s => simpa [htt] using ht s htt

/-- C7 counterexample: a non-summary record whose session id is present
but empty is accepted and canonicalizes to a message whose session id
(and identifier) are empty, refuting the unconditional non-emptiness
asserted by the claim even though the environment supplies non-empty
fresh values. -/
theorem canonicalize_rejects_exactly_counterexample :
    (tryFromRawLogEntry "generated-uuid" "2025-06-26T10:00:00Z" entryEmptyIds).isErr =
      false ∧
    (tryFromRawLogEntry "generated-uuid" "2025-06-26T10:00:00Z"
        entryEmptyIds).toOption.map (·.session_id) = some "" ∧
    (tryFromRawLogEntry "generated-uuid" "2025-06-26T10:00:00Z"
        entryEmptyIds).toOption.map (·.uuid) = some "" :=
  ⟨rfl, rfl, rfl⟩

theorem canonicalize_rejects_exactly_witness :
    ((tryFromRawLogEntry "generated-uuid" "2025-06-26T10:00:00Z" entryDefaultsC7).isErr =
        true ↔
      entryDefaultsC7.message_type = "summary" ∨
        (entryDefaultsC7.session_id = none ∧ entryDefaultsC7.timestamp = none)) ∧
    (entryDefaultsC7.message_type ≠ "summary" →
      ¬(entryDefaultsC7.session_id = none ∧ entryDefaultsC7.timestamp = none) →
      ∃ m, tryFromRawLogEntry "generated-uuid" "2025-06-26T10:00:00Z" entryDefaultsC7 =
            .ok m ∧
        m.uuid = entryDefaultsC7.uuid.getD "generated-uuid" ∧
        m.session_id = entryDefaultsC7.session_id.getD "unknown-session" ∧
        m.timestamp = entryDefaultsC7.timestamp.getD "2025-06-26T10:00:00Z" ∧
        m.uuid ≠ "" ∧ m.session_id ≠ "" ∧ m.timestamp ≠ "") :=
  canonicalize_rejects_exactly "generated-uuid" "2025-06-26T10:00:00Z" entryDefaultsC7
    (by decide) (by decide)
    (fun s h => by simp [entryDefaultsC7, baseEntry] at h)
    (fun s h => by simp [entryDefaultsC7, baseEntry] at h)
    (fun s h => by
      rw [show entryDefaultsC7.timestamp = some "2025-01-01T00:00:00Z" from rfl] at h
      injection h with h
      rw [← h]
      decide)

theorem splitFirst_first_occurrence (pat : List Char) :
    ∀ (s pre suf : List Char), splitFirst pat s = some (pre, suf) →
      s = pre ++ pat ++ suf ∧
      ∀ p2 s2, s = p2 ++ pat ++ s2 → pre.length ≤ p2.length := by
  intro s
  induction s with
  | nil =>
      intro pre suf h
      rw [splitFirst] at h
      split at h
      · next hp =>
          have hpat : pat = [] := List.prefix_nil.mp (List.isPrefixOf_iff_prefix.mp hp)
          injection h with h'
          injection h' with h1 h2
          subst h1; subst h2
          exact ⟨by simp [hpat], fun p2 s2 _ => Nat.zero_le _⟩
      · exact absurd h (by simp)
  | cons c rest ih =>
      intro pre suf h
      rw [splitFirst] at h
      split at h
      · next hp =>
          obtain ⟨t, ht⟩ := List.isPrefixOf_iff_prefix.mp hp
          injection h with h'
          injection h' with h1 h2
          subst h1; subst h2
          constructor
          · rw [List.nil_append, ← ht, List.drop_left]
          · exact fun p2 s2 _ => Nat.zero_le _
      · next hp =>
          cases hsf : splitFirst pat rest with
          | none => rw [hsf] at h; exact absurd h (by simp)
          | some pr =>
              rw [hsf] at h
              simp only [Option.map_some'] at h
              injection h with h'
              obtain ⟨hrest, hmin⟩ := ih pr.1 pr.2 (by rw [hsf])
              have h1 : pre = c :: pr.1 := by
                have := congrArg Prod.fst h'; simpa using this.symm
              have h2 : suf = pr.2 := by
                have := congrArg Prod.snd h'; simpa using this.symm
              subst h1; subst h2
              constructor
              · simpa using congrArg (c :: ·) hrest
              · intro p2 s2 hs
                cases p2 with
                | nil =>
                    exfalso
                    apply hp
                    apply List.isPrefixOf_iff_prefix.mpr
                    exact ⟨s2, by simpa using hs.symm⟩
                | cons d p2' =>
                    injection hs with hc hrest2
                    simpa using Nat.succ_le_succ (hmin p2' s2 hrest2)

theorem replay_foldl_eq (arr : List Json) :
    ∀ acc : String × Nat × Nat,
      arr.foldl
        (fun acc e =>
          match (e.get "old_string").bind Json.asStr?,
              (e.get "new_string").bind Json.asStr? with
          | some olds, some news =>
              (replaceFirst acc.1 olds news,
               acc.2.1 + linesCount news,
               acc.2.2 + linesCount olds)
          | _, _ => acc) acc =
      (extractEditPairs arr).foldl
        (fun acc p =>
          (replaceFirst acc.1 p.1 p.2,
           acc.2.1 + linesCount p.2,
           acc.2.2 + linesCount p.1)) acc := by
  induction arr with
  | nil => intro acc; rfl
  | cons e rest ih =>
      intro acc
      cases ho : (e.get "old_string").bind Json.asStr? with
      | none =>
          simp only [List.foldl_cons, extractEditPairs, List.filterMap_cons, ho]
          exact ih acc
      | some olds =>
          cases hn : (e.get "new_string").bind Json.asStr? with
          | none =>
              simp only [List.foldl_cons, extractEditPairs, List.filterMap_cons, ho, hn]
              exact ih acc
          | some news =>
              simp only [List.foldl_cons, extractEditPairs, List.filterMap_cons, ho, hn]
              exact ih _

/-- C4: the multi-edit replay applies each `{old_string,new_string}` pair
in array order to a running buffer initialized to the `originalFile`
snapshot, each step replacing only the first occurrence of `old_string`
(the replacement site is the least-offset occurrence), accumulating
added/removed line counts per step; the tool-result branch emits exactly
one edit record carrying the replayed content; and the scenario
`[{old:"a",new:"b"},{old:"b",new:"c"}]` against original `"a"` yields
final content `"c"` with two lines removed and two added. -/
theorem multi_edit_replay :
    (∀ (original : String) (arr : List Json),
       replayEditsJson original (Json.arr arr) =
         replayPairs original (extractEditPairs arr)) ∧
    (∀ (s pat rep : String) (pre suf : List Char),
       splitFirst pat.data s.data = some (pre, suf) →
       (replaceFirst s pat rep).data = pre ++ rep.data ++ suf ∧
       s.data = pre ++ pat.data ++ suf ∧
       ∀ p2 s2, s.data = p2 ++ pat.data ++ s2 → pre.length ≤ p2.length) ∧
    (∀ (tr : Json) (ts sid : String) (cwd : Option String) (fp : String)
       (ev : Json) (orig : String),
       tr.get "filePath" = some (Json.str fp) →
       tr.get "edits" = some ev →
       tr.get "originalFile" = some (Json.str orig) →
       (editsFromToolUseResult tr ts sid cwd).filter
           (fun e => decide (e.operation_type = "edit")) =
         [⟨fp, ts, sid, "edit", (replayEditsJson orig ev).1, some orig,
           (replayEditsJson orig ev).2.1, (replayEditsJson orig ev).2.2, cwd⟩]) ∧
    (editsFromToolUseResult trC4 "t1" "s1" none =
       [⟨"/f", "t1", "s1", "edit", "c", some "a", 2, 2, none⟩]) := by
  refine ⟨?_, ?_, ?_, ?_⟩
  · intro original arr
    unfold replayEditsJson replayPairs
    simp only [Json.asArr?]
    exact replay_foldl_eq arr (original, 0, 0)
  · intro s pat rep pre suf h
    obtain ⟨heq, hmin⟩ := splitFirst_first_occurrence pat.data s.data pre suf h
    refine ⟨?_, heq, hmin⟩
    unfold replaceFirst replaceFirstChars
    rw [h]
  · intro tr ts sid cwd fp ev orig hfp hev horig
    unfold editsFromToolUseResult
    rw [hfp, hev]
    rw [show (tr.get "originalFile").bind Json.asStr? = some orig by rw [horig]; rfl]
    dsimp only [Json.asStr?]
    by_cases hcr : (tr.get "type").bind Json.asStr? = some "create"
    · rw [if_pos hcr]
      cases hco : (tr.get "content").bind Json.asStr? with
      | none => simp [hco, Json.asStr?]
      | some cc => simp [hco, Json.asStr?]
    · rw [if_neg hcr]
      simp
  · decide

theorem multi_edit_replay_witness :
    ((replaceFirst "aa" "a" "b").data = [] ++ "b".data ++ ['a'] ∧
     "aa".data = [] ++ "a".data ++ ['a'] ∧
     ∀ p2 s2, "aa".data = p2 ++ "a".data ++ s2 →
       List.length ([] : List Char) ≤ p2.length) ∧
    (editsFromToolUseResult trC4 "t1" "s1" none).filter
        (fun e => decide (e.operation_type = "edit")) =
      [⟨"/f", "t1", "s1", "edit", (replayEditsJson "a" editsArrC4).1, some "a",
        (replayEditsJson "a" editsArrC4).2.1, (replayEditsJson "a" editsArrC4).2.2,
        none⟩] :=
  ⟨multi_edit_replay.2.1 "aa" "a" "b" [] ['a'] rfl,
   multi_edit_replay.2.2.1 trC4 "t1" "s1" none "/f" editsArrC4 "a" rfl rfl rfl⟩

theorem processSessionFile_foldl_cwd (records : List RawLogEntry) :
    ∀ acc : SessionEditsResult, (∀ r ∈ records, r.cwd = none) →
      (records.foldl
        (fun acc e =>
          { edits := acc.edits ++ recordEdits e
            cwd_counts :=
              match e.cwd with
              | some c => bumpCwd acc.cwd_counts c 1
              | none => acc.cwd_counts }) acc).cwd_counts = acc.cwd_counts := by
  induction records with
  | nil => intro acc _; rfl
  | cons r rest ih =>
      intro acc h
      have hr : r.cwd = none := h r (List.mem_cons_self r rest)
      rw [List.foldl_cons, ih _ (fun x hx => h x (List.mem_cons_of_mem r hx))]
      simp [hr]

theorem cwdCountsOf_nil (files : List (List RawLogEntry))
    (h : ∀ f ∈ files, ∀ r ∈ f, r.cwd = none) :
    cwdCountsOf files = [] := by
  unfold cwdCountsOf
  have main : ∀ (fs : List (List RawLogEntry)),
      (∀ f ∈ fs, ∀ r ∈ f, r.cwd = none) →
      ∀ m, (fs.map processSessionFile).foldl
          (fun m r => r.cwd_counts.foldl (fun acc p => bumpCwd acc p.1 p.2) m) m = m := by
    intro fs
    induction fs with
    | nil => intro _ m; rfl
    | cons f rest ih =>
        intro hh m
        rw [List.map_cons, List.foldl_cons]
        have hf : (processSessionFile f).cwd_counts = [] :=
          processSessionFile_foldl_cwd f ⟨[], []⟩ (hh f (List.mem_cons_self f rest))
        rw [hf]
        exact ih (fun g hg => hh g (List.mem_cons_of_mem f hg)) m
  exact main files h []

/-- C10: when no scanned record in any session file carries a
working-directory field, `get_recent_edits` reports `project_cwd = none`
and applies no path-prefix filtering: the deduplication/pagination input
is exactly the list of all detected edit events, and `total_edits_count`
counts all of them. -/
theorem no_cwd_no_filter (files : List (List RawLogEntry)) (offset limit : Nat)
    (h : ∀ f ∈ files, ∀ r ∈ f, r.cwd = none) :
    (get_recent_edits files offset limit).project_cwd = none ∧
    filteredEditsOf files = allEditsOf files ∧
    (get_recent_edits files offset limit).total_edits_count =
      (allEditsOf files).length := by
  have hpc : projectCwdOf files = none := by
    unfold projectCwdOf
    rw [cwdCountsOf_nil files h]
    rfl
  have hfe : filteredEditsOf files = allEditsOf files := by
    unfold filteredEditsOf
    rw [hpc]
  refine ⟨hpc, hfe, ?_⟩
  show (filteredEditsOf files).length = (allEditsOf files).length
  rw [hfe]

theorem no_cwd_no_filter_witness :
    (get_recent_edits [[recC10]] 0 20).project_cwd = none ∧
    filteredEditsOf [[recC10]] = allEditsOf [[recC10]] ∧
    (get_recent_edits [[recC10]] 0 20).total_edits_count =
      (allEditsOf [[recC10]]).length :=
  no_cwd_no_filter [[recC10]] 0 20
    (by
      intro f hf r hr
      simp only [List.mem_singleton] at hf
      subst hf
      simp only [List.mem_singleton] at hr
      subst hr
      rfl)

theorem dedupFirst_subset (l : List RecentFileEdit) : ∀ x ∈ dedupFirst l, x ∈ l := by
  induction l using dedupFirst.induct with
  | case1 => intro x hx; simp [dedupFirst] at hx
  | case2 e rest ih =>
      intro x hx
      rw [dedupFirst] at hx
      rcases List.mem_cons.mp hx with h | h
      · exact h ▸ List.mem_cons_self _ _
      · exact List.mem_cons_of_mem _ (List.mem_of_mem_filter (ih x h))

theorem dedupFirst_length_le (l : List RecentFileEdit) :
    (dedupFirst l).length ≤ l.length := by
  induction l using dedupFirst.induct with
  | case1 => simp [dedupFirst]
  | case2 e rest ih =>
      rw [dedupFirst, List.length_cons, List.length_cons]
      exact Nat.succ_le_succ (le_trans ih (List.length_filter_le _ rest))

theorem find?_filter_of_imp (p q : RecentFileEdit → Bool) (l : List RecentFileEdit)
    (h : ∀ x, p x = true → q x = true) :
    (l.filter q).find? p = l.find? p := by
  induction l with
  | nil => rfl
  | cons a t ih =>
      by_cases hq : q a = true
      · rw [List.filter_cons_of_pos hq]
        by_cases hp : p a = true
        · rw [List.find?_cons_of_pos _ hp, List.find?_cons_of_pos _ hp]
        · rw [List.find?_cons_of_neg _ (by simpa using hp),
            List.find?_cons_of_neg _ (by simpa using hp)]
          exact ih
      · rw [List.filter_cons_of_neg (by simpa using hq)]
        have hp : ¬p a = true := fun hpa => hq (h a hpa)
        rw [List.find?_cons_of_neg _ (by simpa using hp)]
        exact ih

theorem dedupFirst_filter (F : String) (l : List RecentFileEdit) :
    (dedupFirst l).filter (fun x => decide (x.file_path = F)) =
      (l.find? (fun x => decide (x.file_path = F))).elim [] (fun e => [e]) := by
  induction l using dedupFirst.induct with
  | case1 => simp [dedupFirst]
  | case2 e rest ih =>
      rw [dedupFirst]
      by_cases hF : e.file_path = F
      · rw [List.filter_cons_of_pos (by simpa using hF),
          List.find?_cons_of_pos _ (by simpa using hF)]
        have hno : (dedupFirst (rest.filter (fun x => x.file_path ≠ e.file_path))).filter
            (fun x => decide (x.file_path = F)) = [] := by
          apply List.filter_eq_nil_iff.mpr
          intro x hx
          have hx' := dedupFirst_subset _ x hx
          have hne : x.file_path ≠ e.file_path := by
            simpa using List.of_mem_filter hx'
          simpa using fun hxF => hne (hxF.trans hF.symm)
        rw [hno]
        rfl
      · rw [List.filter_cons_of_neg (by simpa using hF),
          List.find?_cons_of_neg _ (by simpa using hF), ih]
        congr 1
        apply find?_filter_of_imp
        intro x hx
        have hxF : x.file_path = F := by simpa using hx
        simpa using fun hxe : x.file_path = e.file_path => hF (hxe.symm.trans hxF)

theorem dedupFirst_paths_nodup (l : List RecentFileEdit) :
    ((dedupFirst l).map (·.file_path)).Nodup := by
  induction l using dedupFirst.induct with
  | case1 => simp [dedupFirst]
  | case2 e rest ih =>
      rw [dedupFirst, List.map_cons]
      refine List.nodup_cons.mpr ⟨?_, ih⟩
      intro hmem
      obtain ⟨x, hx, hpx⟩ := List.mem_map.mp hmem
      have hne : x.file_path ≠ e.file_path := by
        simpa using List.of_mem_filter (dedupFirst_subset _ x hx)
      exact hne hpx

theorem dedupFirst_path_mem (F : String) (l : List RecentFileEdit) :
    (∃ x ∈ dedupFirst l, x.file_path = F) ↔ ∃ x ∈ l, x.file_path = F := by
  induction l using dedupFirst.induct with
  | case1 => simp [dedupFirst]
  | case2 e rest ih =>
      rw [dedupFirst]
      constructor
      · rintro ⟨x, hx, hxF⟩
        rcases List.mem_cons.mp hx with rfl | hx'
        · exact ⟨x, List.mem_cons_self _ _, hxF⟩
        · exact ⟨x, List.mem_cons_of_mem _ (List.mem_of_mem_filter
            (dedupFirst_subset _ x hx')), hxF⟩
      · rintro ⟨x, hx, hxF⟩
        rcases List.mem_cons.mp hx with rfl | hx'
        · exact ⟨x, List.mem_cons_self _ _, hxF⟩
        · by_cases hxe : x.file_path = e.file_path
          · exact ⟨e, List.mem_cons_self _ _, hxe ▸ hxF⟩
          · obtain ⟨y, hy, hyF⟩ := ih.mpr
              ⟨x, List.mem_filter_of_mem hx' (by simpa using hxe), hxF⟩
            exact ⟨y, List.mem_cons_of_mem _ hy, hyF⟩

theorem dedupFirst_length_eq_card (l : List RecentFileEdit) :
    (dedupFirst l).length = (l.map (·.file_path)).toFinset.card := by
  have h1 : (dedupFirst l).length = ((dedupFirst l).map (·.file_path)).length :=
    (List.length_map _ _).symm
  rw [h1, ← List.toFinset_card_of_nodup (dedupFirst_paths_nodup l)]
  congr 1
  apply Finset.ext
  intro a
  simp only [List.mem_toFinset, List.mem_map]
  constructor
  · rintro ⟨x, hx, hpx⟩
    exact (dedupFirst_path_mem a l).mp ⟨x, hx, hpx⟩ |>.imp (fun y hy => hy)
  · rintro ⟨x, hx, hpx⟩
    exact (dedupFirst_path_mem a l).mpr ⟨x, hx, hpx⟩ |>.imp (fun y hy => hy)

theorem find?_sorted_max (l : List RecentFileEdit) (F : String) (e : RecentFileEdit)
    (hs : l.Sorted (fun a b => b.timestamp ≤ a.timestamp))
    (hf : l.find? (fun x => decide (x.file_path = F)) = some e) :
    ∀ x ∈ l, x.file_path = F → x.timestamp ≤ e.timestamp := by
  induction l with
  | nil => simp at hf
  | cons a t ih =>
      rcases List.sorted_cons.mp hs with ⟨ha, ht⟩
      by_cases hpa : a.file_path = F
      · rw [List.find?_cons_of_pos _ (by simpa using hpa)] at hf
        injection hf with hf
        subst hf
        intro x hx hxF
        rcases List.mem_cons.mp hx with rfl | hx'
        · exact le_refl _
        · exact ha x hx'
      · rw [List.find?_cons_of_neg _ (by simpa using hpa)] at hf
        intro x hx hxF
        rcases List.mem_cons.mp hx with rfl | hx'
        · exact absurd hxF hpa
        · exact ih ht hf x hx' hxF

/-- C3: for a post-filter edit list in which file path `F` occurs with
pairwise-distinct timestamps, the paginated result counts all post-filter
events in `total_edits_count`, counts distinct file paths in
`unique_files_count`, reports `has_more` exactly when
`offset + returned_count < unique_files_count`, and (on a page covering
the whole deduplicated list) returns exactly one entry for `F`, namely
the post-filter event with the strictly greatest timestamp among the
events touching `F`. -/
theorem recent_edits_dedup (filtered : List RecentFileEdit) (pc : Option String)
    (F : String)
    (hex : ∃ e ∈ filtered, e.file_path = F)
    (hdist : ∀ x ∈ filtered, ∀ y ∈ filtered, x.file_path = F → y.file_path = F →
       x.timestamp = y.timestamp → x = y) :
    (∀ offset limit,
       (paginateEdits filtered pc offset limit).total_edits_count = filtered.length ∧
       (paginateEdits filtered pc offset limit).unique_files_count =
         (filtered.map (·.file_path)).toFinset.card ∧
       ((paginateEdits filtered pc offset limit).has_more = true ↔
          offset + (paginateEdits filtered pc offset limit).files.length <
            (paginateEdits filtered pc offset limit).unique_files_count)) ∧
    (∃ e,
       ((paginateEdits filtered pc 0 filtered.length).files.countP
           (fun x => decide (x.file_path = F))) = 1 ∧
       e ∈ (paginateEdits filtered pc 0 filtered.length).files ∧
       e.file_path = F ∧ e ∈ filtered ∧
       ∀ x ∈ filtered, x.file_path = F → x ≠ e → x.timestamp < e.timestamp) := by
  have hsort_perm : (sortEditsDesc filtered).Perm filtered :=
    List.perm_insertionSort _ _
  have hsorted : (sortEditsDesc filtered).Sorted (fun a b => b.timestamp ≤ a.timestamp) :=
    List.sorted_insertionSort _ _
  constructor
  · intro offset limit
    refine ⟨rfl, ?_, ?_⟩
    · show (dedupFirst (sortEditsDesc filtered)).length = _
      rw [dedupFirst_length_eq_card]
      congr 1
      exact List.toFinset_eq_of_perm _ _ (List.Perm.map (·.file_path) hsort_perm)
    · exact ⟨of_decide_eq_true, decide_eq_true⟩
  · obtain ⟨e0, he0mem, he0F⟩ := hex
    have hfind : (sortEditsDesc filtered).find?
        (fun x => decide (x.file_path = F)) |>.isSome := by
      rw [List.find?_isSome]
      exact ⟨e0, (List.mem_insertionSort _).mpr he0mem, by simpa using he0F⟩
    obtain ⟨e, hfe⟩ := Option.isSome_iff_exists.mp hfind
    have heF : e.file_path = F := by simpa using List.find?_some hfe
    have hemem_sorted : e ∈ sortEditsDesc filtered := List.mem_of_find?_eq_some hfe
    have hemem : e ∈ filtered := hsort_perm.mem_iff.mp hemem_sorted
    have hmax : ∀ x ∈ filtered, x.file_path = F → x.timestamp ≤ e.timestamp := by
      intro x hx hxF
      exact find?_sorted_max (sortEditsDesc filtered) F e hsorted hfe x
        (hsort_perm.mem_iff.mpr hx) hxF
    have hfil : (dedupFirst (sortEditsDesc filtered)).filter
        (fun x => decide (x.file_path = F)) = [e] := by
      rw [dedupFirst_filter, hfe]
      rfl
    have hlen_le : (sortEditsDesc (dedupFirst (sortEditsDesc filtered))).length ≤
        filtered.length := by
      have h1 : (sortEditsDesc (dedupFirst (sortEditsDesc filtered))).length =
          (dedupFirst (sortEditsDesc filtered)).length :=
        (List.perm_insertionSort _ _).length_eq
      rw [h1]
      exact le_trans (dedupFirst_length_le _) (le_of_eq hsort_perm.length_eq)
    have hpage : (paginateEdits filtered pc 0 filtered.length).files =
        sortEditsDesc (dedupFirst (sortEditsDesc filtered)) := by
      show ((sortEditsDesc (dedupFirst (sortEditsDesc filtered))).drop 0).take
          filtered.length = _
      rw [List.drop_zero]
      exact List.take_of_length_le hlen_le
    have hperm2 : (sortEditsDesc (dedupFirst (sortEditsDesc filtered))).Perm
        (dedupFirst (sortEditsDesc filtered)) := List.perm_insertionSort _ _
    refine ⟨e, ?_, ?_, heF, hemem, ?_⟩
    · rw [hpage, hperm2.countP_eq, List.countP_eq_length_filter, hfil]
      rfl
    · rw [hpage]
      apply (List.mem_insertionSort _).mpr
      exact List.mem_of_mem_filter (hfil ▸ List.mem_singleton_self e)
    · intro x hx hxF hne
      exact lt_of_le_of_ne (hmax x hx hxF)
        (fun heq => hne (hdist x hx e hemem hxF heF heq))

theorem recent_edits_dedup_witness :
    (∀ offset limit,
       (paginateEdits filteredC3 none offset limit).total_edits_count =
         filteredC3.length ∧
       (paginateEdits filteredC3 none offset limit).unique_files_count =
         (filteredC3.map (·.file_path)).toFinset.card ∧
       ((paginateEdits filteredC3 none offset limit).has_more = true ↔
          offset + (paginateEdits filteredC3 none offset limit).files.length <
            (paginateEdits filteredC3 none offset limit).unique_files_count)) ∧
    (∃ e,
       ((paginateEdits filteredC3 none 0 filteredC3.length).files.countP
           (fun x => decide (x.file_path = "/p/a"))) = 1 ∧
       e ∈ (paginateEdits filteredC3 none 0 filteredC3.length).files ∧
       e.file_path = "/p/a" ∧ e ∈ filteredC3 ∧
       ∀ x ∈ filteredC3, x.file_path = "/p/a" → x ≠ e →
         x.timestamp < e.timestamp) :=
  recent_edits_dedup filteredC3 none "/p/a" (by decide) (by decide)

theorem flrGo_bounds (len : Nat) :
    ∀ (ps : List Nat) (start : Nat),
      (∀ p ∈ ps, start ≤ p ∧ p < len) →
      ps.Pairwise (· < ·) →
      ∀ r ∈ flrGo len ps start, start ≤ r.1 ∧ r.1 < r.2 ∧ r.2 ≤ len := by
  intro ps
  induction ps with
  | nil =>
      intro start _ _ r hr
      rw [flrGo] at hr
      split at hr
      · next hlt =>
          rcases List.mem_singleton.mp hr with rfl
          exact ⟨le_refl _, hlt, le_refl _⟩
      · simp at hr
  | cons p ps ih =>
      intro start h1 h2 r hr
      rw [flrGo] at hr
      obtain ⟨hsp, hplen⟩ := h1 p (List.mem_cons_self _ _)
      rcases List.pairwise_cons.mp h2 with ⟨hplt, h2'⟩
      rcases List.mem_append.mp hr with hl | hrr
      · split at hl
        · next hlt =>
            rcases List.mem_singleton.mp hl with rfl
            exact ⟨le_refl _, hlt, le_of_lt hplen⟩
        · simp at hl
      · have hb := ih (p + 1)
          (fun q hq => ⟨Nat.succ_le_of_lt (hplt q hq),
            (h1 q (List.mem_cons_of_mem _ hq)).2⟩) h2' r hrr
        refine ⟨?_, hb.2.1, hb.2.2⟩
        have := hb.1
        omega

theorem flrGo_pairwise (len : Nat) :
    ∀ (ps : List Nat) (start : Nat),
      (∀ p ∈ ps, start ≤ p ∧ p < len) →
      ps.Pairwise (· < ·) →
      (flrGo len ps start).Pairwise (fun a b => a.2 < b.1) := by
  intro ps
  induction ps with
  | nil =>
      intro start _ _
      rw [flrGo]
      split
      · exact List.pairwise_singleton _ _
      · exact List.Pairwise.nil
  | cons p ps ih =>
      intro start h1 h2
      rw [flrGo]
      obtain ⟨hsp, hplen⟩ := h1 p (List.mem_cons_self _ _)
      rcases List.pairwise_cons.mp h2 with ⟨hplt, h2'⟩
      have harg : ∀ q ∈ ps, p + 1 ≤ q ∧ q < len :=
        fun q hq => ⟨Nat.succ_le_of_lt (hplt q hq),
          (h1 q (List.mem_cons_of_mem _ hq)).2⟩
      have hbnd := flrGo_bounds len ps (p + 1) harg h2'
      have htail := ih (p + 1) harg h2'
      apply List.pairwise_append.mpr
      refine ⟨?_, htail, ?_⟩
      · split
        · exact List.pairwise_singleton _ _
        · exact List.Pairwise.nil
      · intro a ha b hb
        split at ha
        · next hlt =>
            rcases List.mem_singleton.mp ha with rfl
            have := (hbnd b hb).1
            show p < b.1
            omega
        · simp at ha

theorem flrGo_mem_iff (data : List Nat) :
    ∀ (ps : List Nat) (start : Nat),
      start ≤ data.length →
      (∀ p ∈ ps, start ≤ p ∧ p < data.length ∧ data.getD p 0 = 10) →
      ps.Pairwise (· < ·) →
      (∀ i, start ≤ i → i < data.length → data.getD i 0 = 10 → i ∈ ps) →
      ∀ s e, ((s, e) ∈ flrGo data.length ps start ↔
        (start ≤ s ∧ s < e ∧ e ≤ data.length ∧
         (∀ i, s ≤ i → i < e → data.getD i 0 ≠ 10) ∧
         (s = start ∨ data.getD (s - 1) 0 = 10) ∧
         (e = data.length ∨ data.getD e 0 = 10))) := by
  intro ps
  induction ps with
  | nil =>
      intro start hsl h1 h2 h4 s e
      rw [flrGo]
      by_cases hlt : start < data.length
      · rw [if_pos hlt]
        constructor
        · intro hmem
          have heq := List.mem_singleton.mp hmem
          have hs : s = start := congrArg Prod.fst heq
          have he : e = data.length := congrArg Prod.snd heq
          subst hs; subst he
          refine ⟨le_refl _, hlt, le_refl _, ?_, Or.inl rfl, Or.inl rfl⟩
          intro i hi1 hi2 hnl
          exact absurd (h4 i hi1 hi2 hnl) (List.not_mem_nil i)
        · rintro ⟨hs1, hs2, hs3, hnl, hb1, hb2⟩
          have hseq : s = start := by
            by_contra hne
            have hgt : start < s := lt_of_le_of_ne hs1 (Ne.symm hne)
            rcases hb1 with h | h
            · exact hne h
            · exact absurd (h4 (s - 1) (by omega) (by omega) h) (List.not_mem_nil _)
          have heeq : e = data.length := by
            by_contra hne
            have hlt2 : e < data.length := lt_of_le_of_ne hs3 hne
            rcases hb2 with h | h
            · exact hne h
            · exact absurd (h4 e (by omega) hlt2 h) (List.not_mem_nil _)
          subst hseq; subst heeq
          exact List.mem_singleton.mpr rfl
      · rw [if_neg hlt]
        constructor
        · intro h; exact absurd h (List.not_mem_nil _)
        · rintro ⟨hs1, hs2, hs3, _, _, _⟩
          exact absurd (show start < data.length by omega) hlt
  | cons p ps ih =>
      intro start hsl h1 h2 h4 s e
      obtain ⟨hsp, hplen, hpnl⟩ := h1 p (List.mem_cons_self _ _)
      rcases List.pairwise_cons.mp h2 with ⟨hplt, h2'⟩
      have h1' : ∀ q ∈ ps, p + 1 ≤ q ∧ q < data.length ∧ data.getD q 0 = 10 :=
        fun q hq => ⟨Nat.succ_le_of_lt (hplt q hq), (h1 q (List.mem_cons_of_mem _ hq)).2⟩
      have h4' : ∀ i, p + 1 ≤ i → i < data.length → data.getD i 0 = 10 → i ∈ ps := by
        intro i hi1 hi2 hnl
        rcases List.mem_cons.mp (h4 i (by omega) hi2 hnl) with rfl | hmem
        · omega
        · exact hmem
      have IH := ih (p + 1) (by omega) h1' h2' h4'
      rw [flrGo]
      constructor
      · intro hmem
        rcases List.mem_append.mp hmem with hl | hr
        · have hcond : start < p := by
            by_contra hc
            rw [if_neg hc] at hl
            exact absurd hl (List.not_mem_nil _)
          rw [if_pos hcond] at hl
          have heq := List.mem_singleton.mp hl
          have hs : s = start := congrArg Prod.fst heq
          have he : e = p := congrArg Prod.snd heq
          subst hs; subst he
          refine ⟨le_refl _, hcond, le_of_lt hplen, ?_, Or.inl rfl, Or.inr hpnl⟩
          intro i hi1 hi2 hnl
          rcases List.mem_cons.mp (h4 i hi1 (by omega) hnl) with rfl | hmem2
          · omega
          · have := hplt i hmem2; omega
        · obtain ⟨ha, hb, hc, hd, he2, hf⟩ := (IH s e).mp hr
          refine ⟨by omega, hb, hc, hd, ?_, hf⟩
          rcases he2 with h | h
          · right; subst h; simpa using hpnl
          · right; exact h
      · rintro ⟨hs1, hs2, hs3, hnl, hb1, hb2⟩
        have hnotin : ¬(s ≤ p ∧ p < e) := by
          rintro ⟨u, v⟩
          exact hnl p u v hpnl
        by_cases hcase : p < s
        · apply List.mem_append.mpr
          right
          apply (IH s e).mpr
          refine ⟨by omega, hs2, hs3, hnl, ?_, hb2⟩
          rcases hb1 with h | h
          · exfalso; omega
          · right; exact h
        · have hep : e ≤ p := by omega
          have hseq : s = start := by
            by_contra hne
            have hgt : start < s := lt_of_le_of_ne hs1 (Ne.symm hne)
            rcases hb1 with h | h
            · exact hne h
            · rcases List.mem_cons.mp (h4 (s - 1) (by omega) (by omega) h) with
                heq2 | hmem3
              · omega
              · have := hplt _ hmem3; omega
          have heeq : e = p := by
            rcases hb2 with h | h
            · omega
            · rcases List.mem_cons.mp (h4 e (by omega) (by omega) h) with heq2 | hmem3
              · exact heq2
              · have := hplt _ hmem3; omega
          subst hseq; subst heeq
          apply List.mem_append.mpr
          left
          rw [if_pos hs2]
          exact List.mem_singleton.mpr rfl

/-- C8: `find_line_ranges` returns, in strictly increasing file order,
exactly the `(start, end)` offset pairs of the non-empty maximal
newline-free segments of the buffer: membership coincides with
`IsLineRange` (so empty lines between consecutive newlines are skipped
and a final unterminated line is included), no returned range is
zero-length, and consecutive ranges are strictly ordered. -/
theorem find_line_ranges_spec (data : List Nat) :
    (∀ s e, ((s, e) ∈ find_line_ranges data ↔ IsLineRange data s e)) ∧
    (∀ r ∈ find_line_ranges data, r.1 < r.2) ∧
    (find_line_ranges data).Pairwise (fun a b => a.2 < b.1) := by
  have hps : ∀ p ∈ newlinePositions data,
      0 ≤ p ∧ p < data.length ∧ data.getD p 0 = 10 := by
    intro p hp
    rw [newlinePositions, List.mem_filter, List.mem_range] at hp
    exact ⟨Nat.zero_le _, hp.1, of_decide_eq_true hp.2⟩
  have hps' : ∀ p ∈ newlinePositions data, 0 ≤ p ∧ p < data.length :=
    fun p hp => ⟨(hps p hp).1, (hps p hp).2.1⟩
  have hpw : (newlinePositions data).Pairwise (· < ·) :=
    List.Pairwise.filter _ (List.pairwise_lt_range _)
  have hcmp : ∀ i, 0 ≤ i → i < data.length → data.getD i 0 = 10 →
      i ∈ newlinePositions data := by
    intro i _ hilen hnl
    rw [newlinePositions, List.mem_filter, List.mem_range]
    exact ⟨hilen, decide_eq_true hnl⟩
  have hmem := flrGo_mem_iff data (newlinePositions data) 0 (Nat.zero_le _)
    (fun p hp => ⟨Nat.zero_le _, (hps p hp).2⟩) hpw hcmp
  refine ⟨?_, ?_, ?_⟩
  · intro s e
    rw [show find_line_ranges data = flrGo data.length (newlinePositions data) 0
        from rfl, hmem s e]
    unfold IsLineRange
    constructor
    · rintro ⟨_, h2, h3, h4, h5, h6⟩
      exact ⟨h2, h3, h4, h5, h6⟩
    · rintro ⟨h2, h3, h4, h5, h6⟩
      exact ⟨Nat.zero_le _, h2, h3, h4, h5, h6⟩
  · intro r hr
    exact (flrGo_bounds data.length (newlinePositions data) 0 hps' hpw r hr).2.1
  · exact flrGo_pairwise data.length (newlinePositions data) 0 hps' hpw

theorem find_line_ranges_spec_witness :
    IsLineRange [97, 10, 10, 98] 0 1 ∧ IsLineRange [97, 10, 10, 98] 3 4 :=
  ⟨((find_line_ranges_spec [97, 10, 10, 98]).1 0 1).mp (by decide),
   ((find_line_ranges_spec [97, 10, 10, 98]).1 3 4).mp (by decide)⟩
